import Mathlib

/-!
Verification of the AutoSync daemon (`homunculus_daemon.py`).

The daemon's pure computational content is embedded shallowly:

* Python string operations (`str.replace`, `str.split`, `str.strip`,
  slicing) are modelled as structurally recursive functions on `List Char`
  (fuel-indexed so the kernel can evaluate them);
* the side-effecting cycle body (`run_autosync_daemon`'s `while` body) is
  modelled as a pure function from its inputs (the fetched commit, the
  persisted state file, a download-outcome oracle) to an event trace plus
  the resulting state-file content;
* exceptions are modelled by an `Option String` error component that
  propagates to the outer `except` handler of the loop.
-/

namespace AutoSync

/-! ### Python string primitives on `List Char` -/

/-- Substring test: `p` occurs somewhere in `xs` (Python `p in s`). -/
def occursB (p : List Char) : List Char → Bool
  | [] => decide (p = [])
  | x :: xs => p.isPrefixOf (x :: xs) || occursB p xs

/-- Propositional form of substring occurrence. -/
def occursIn (p xs : List Char) : Prop := ∃ a b, xs = a ++ (p ++ b)

/-- Fuel-indexed scanner for Python `str.replace` (replace all occurrences,
left to right, non-overlapping). -/
def repAllF (p r : List Char) : Nat → List Char → List Char
  | _, [] => []
  | 0, xs => xs
  | fuel + 1, x :: xs =>
    if p.isPrefixOf (x :: xs) ∧ p ≠ [] then
      r ++ repAllF p r fuel (xs.drop (p.length - 1))
    else
      x :: repAllF p r fuel xs

/-- Python `s.replace(p, r)` on code-point lists. -/
def repAll (p r xs : List Char) : List Char := repAllF p r xs.length xs

/-- Fuel-indexed scanner for Python `str.split(p)` (all occurrences,
left to right, non-overlapping). -/
def splitAllF (p : List Char) : Nat → List Char → List (List Char)
  | _, [] => [[]]
  | 0, xs => [xs]
  | fuel + 1, x :: xs =>
    if p.isPrefixOf (x :: xs) ∧ p ≠ [] then
      [] :: splitAllF p fuel (xs.drop (p.length - 1))
    else
      match splitAllF p fuel xs with
      | [] => [[x]]
      | t :: ts => (x :: t) :: ts

/-- Python `s.split(p)` on code-point lists. -/
def splitAll (p xs : List Char) : List (List Char) := splitAllF p xs.length xs

/-- Python whitespace predicate used by `str.strip()`. -/
def pySpace (c : Char) : Bool :=
  c == ' ' || c == '\t' || c == '\n' || c == '\r' || c == '\x0b' || c == '\x0c'

/-- Python `s.strip()`. -/
def pyStrip (s : String) : String :=
  String.mk (((s.data.dropWhile pySpace).reverse.dropWhile pySpace).reverse)

/-- Python `s[:n]` (slicing by code points). -/
def pyTake (s : String) (n : Nat) : String := String.mk (s.data.take n)

theorem data_append (s t : String) : (s ++ t).data = s.data ++ t.data := rfl

theorem str_eq_of_data {s t : String} (h : s.data = t.data) : s = t := by
  cases s; cases t; exact congrArg String.mk h

/-! ### Basic lemmas about the string primitives -/

theorem isPrefixOf_iff (p xs : List Char) :
    p.isPrefixOf xs = true ↔ ∃ t, xs = p ++ t := by
  induction p generalizing xs with
  | nil => simp [List.isPrefixOf]
  | cons a as ih =>
    cases xs with
    | nil => simp [List.isPrefixOf]
    | cons b bs =>
      simp only [List.isPrefixOf, Bool.and_eq_true, beq_iff_eq, ih]
      constructor
      · rintro ⟨rfl, t, rfl⟩; exact ⟨t, rfl⟩
      · rintro ⟨t, ht⟩
        injection ht with h1 h2
        exact ⟨h1.symm, t, h2⟩

theorem occursB_iff (p xs : List Char) : occursB p xs = true ↔ occursIn p xs := by
  induction xs with
  | nil =>
    simp only [occursB, decide_eq_true_eq, occursIn]
    constructor
    · rintro rfl; exact ⟨[], [], rfl⟩
    · rintro ⟨a, b, h⟩
      rcases List.append_eq_nil.mp h.symm with ⟨rfl, h2⟩
      rcases List.append_eq_nil.mp h2 with ⟨rfl, rfl⟩
      rfl
  | cons x xs ih =>
    simp only [occursB, Bool.or_eq_true, isPrefixOf_iff, ih, occursIn]
    constructor
    · rintro (⟨t, ht⟩ | ⟨a, b, rfl⟩)
      · exact ⟨[], t, ht⟩
      · exact ⟨x :: a, b, rfl⟩
    · rintro ⟨a, b, h⟩
      cases a with
      | nil => exact Or.inl ⟨b, by simpa using h⟩
      | cons y a =>
        injection h with h1 h2
        exact Or.inr ⟨a, b, h2⟩

theorem occursIn_cons {p xs : List Char} (x : Char) (h : occursIn p xs) :
    occursIn p (x :: xs) := by
  rcases h with ⟨a, b, rfl⟩
  exact ⟨x :: a, b, rfl⟩

theorem not_occursIn_of_cons {p xs : List Char} {x : Char}
    (h : ¬ occursIn p (x :: xs)) : ¬ occursIn p xs :=
  fun hx => h (occursIn_cons x hx)

/-- If `p` is a prefix of `a ++ b` with `a` nonempty, then `p` occurs inside
`a ++ b.take (p.length - 1)`. -/
theorem occursIn_of_isPrefixOf {p b : List Char} {x : Char} {a : List Char}
    (hpre : p.isPrefixOf ((x :: a) ++ b) = true) :
    occursIn p ((x :: a) ++ b.take (p.length - 1)) := by
  rcases (isPrefixOf_iff _ _).mp hpre with ⟨t, ht⟩
  set u : List Char := x :: a with hu
  by_cases hle : p.length ≤ u.length
  · -- the occurrence lies entirely within `u`
    have htake : u.take p.length = p := by
      have h1 : (u ++ b).take p.length = u.take p.length ++ b.take (p.length - u.length) := by
        exact List.take_append_eq_append_take
      have h2 : (p ++ t).take p.length = p := by
        simp [List.take_append_eq_append_take]
      have h3 : p.length - u.length = 0 := Nat.sub_eq_zero_of_le hle
      rw [ht] at h1
      rw [h2] at h1
      simpa [h3] using h1.symm
    refine ⟨[], u.drop p.length ++ b.take (p.length - 1), ?_⟩
    have huu : u = p ++ u.drop p.length := by
      conv_lhs => rw [← List.take_append_drop p.length u, htake]
    simp only [List.nil_append]
    conv_lhs => rw [huu]
    rw [List.append_assoc]
  · -- `p` extends past `u` into `b`
    push_neg at hle
    have hlen : p.length ≤ u.length + b.length := by
      have := congrArg List.length ht
      simp only [List.length_append] at this
      omega
    have hp : p = u ++ b.take (p.length - u.length) := by
      have h1 : (u ++ b).take p.length = u.take p.length ++ b.take (p.length - u.length) :=
        List.take_append_eq_append_take
      have h2 : (p ++ t).take p.length = p := by
        simp [List.take_append_eq_append_take]
      have h3 : u.take p.length = u := List.take_of_length_le (Nat.le_of_lt hle)
      rw [ht] at h1
      rw [h2] at h1
      rw [h3] at h1
      exact h1
    have hsub : p.length - u.length ≤ p.length - 1 := by
      have : 1 ≤ u.length := by simp [hu]
      omega
    have hbtake : b.take (p.length - u.length) = (b.take (p.length - 1)).take (p.length - u.length) := by
      rw [List.take_take, Nat.min_eq_left hsub]
    refine ⟨[], (b.take (p.length - 1)).drop (p.length - u.length), ?_⟩
    simp only [List.nil_append]
    calc u ++ b.take (p.length - 1)
        = u ++ ((b.take (p.length - 1)).take (p.length - u.length)
            ++ (b.take (p.length - 1)).drop (p.length - u.length)) := by
          rw [List.take_append_drop]
      _ = (u ++ (b.take (p.length - 1)).take (p.length - u.length))
            ++ (b.take (p.length - 1)).drop (p.length - u.length) := by
          rw [List.append_assoc]
      _ = (u ++ b.take (p.length - u.length))
            ++ (b.take (p.length - 1)).drop (p.length - u.length) := by
          rw [← hbtake]
      _ = p ++ (b.take (p.length - 1)).drop (p.length - u.length) := by rw [← hp]

/-! ### Fuel irrelevance and unfolding equations -/

theorem repAllF_fuel (p r : List Char) :
    ∀ (m n : Nat) (xs : List Char), xs.length ≤ m → xs.length ≤ n →
      repAllF p r m xs = repAllF p r n xs := by
  intro m
  induction m with
  | zero =>
    intro n xs hm _
    have : xs = [] := List.eq_nil_of_length_eq_zero (Nat.le_zero.mp hm)
    subst this
    cases n <;> rfl
  | succ m ih =>
    intro n xs hm hn
    cases xs with
    | nil => cases n <;> rfl
    | cons x xs =>
      cases n with
      | zero => simp at hn
      | succ n =>
        simp only [repAllF]
        by_cases hc : p.isPrefixOf (x :: xs) = true ∧ p ≠ []
        · rw [if_pos hc, if_pos hc]
          have hd : (xs.drop (p.length - 1)).length ≤ xs.length := by
            simp [List.length_drop]
          have hm' : xs.length ≤ m := by simpa using hm
          have hn' : xs.length ≤ n := by simpa using hn
          rw [ih n (xs.drop (p.length - 1)) (le_trans hd hm') (le_trans hd hn')]
        · rw [if_neg hc, if_neg hc]
          have hm' : xs.length ≤ m := by simpa using hm
          have hn' : xs.length ≤ n := by simpa using hn
          rw [ih n xs hm' hn']

theorem repAll_nil (p r : List Char) : repAll p r [] = [] := rfl

theorem repAll_cons (p r : List Char) (x : Char) (xs : List Char) :
    repAll p r (x :: xs) =
      if p.isPrefixOf (x :: xs) = true ∧ p ≠ [] then
        r ++ repAll p r (xs.drop (p.length - 1))
      else
        x :: repAll p r xs := by
  show repAllF p r (xs.length + 1) (x :: xs) = _
  simp only [repAllF]
  by_cases hc : p.isPrefixOf (x :: xs) = true ∧ p ≠ []
  · rw [if_pos hc, if_pos hc]
    have hd : (xs.drop (p.length - 1)).length ≤ xs.length := by
      simp [List.length_drop]
    rw [repAllF_fuel p r xs.length (xs.drop (p.length - 1)).length _ hd (le_refl _)]
    rfl
  · rw [if_neg hc, if_neg hc]
    rfl

theorem splitAllF_fuel (p : List Char) :
    ∀ (m n : Nat) (xs : List Char), xs.length ≤ m → xs.length ≤ n →
      splitAllF p m xs = splitAllF p n xs := by
  intro m
  induction m with
  | zero =>
    intro n xs hm _
    have : xs = [] := List.eq_nil_of_length_eq_zero (Nat.le_zero.mp hm)
    subst this
    cases n <;> rfl
  | succ m ih =>
    intro n xs hm hn
    cases xs with
    | nil => cases n <;> rfl
    | cons x xs =>
      cases n with
      | zero => simp at hn
      | succ n =>
        simp only [splitAllF]
        by_cases hc : p.isPrefixOf (x :: xs) = true ∧ p ≠ []
        · rw [if_pos hc, if_pos hc]
          have hd : (xs.drop (p.length - 1)).length ≤ xs.length := by
            simp [List.length_drop]
          have hm' : xs.length ≤ m := by simpa using hm
          have hn' : xs.length ≤ n := by simpa using hn
          rw [ih n (xs.drop (p.length - 1)) (le_trans hd hm') (le_trans hd hn')]
        · rw [if_neg hc, if_neg hc]
          have hm' : xs.length ≤ m := by simpa using hm
          have hn' : xs.length ≤ n := by simpa using hn
          rw [ih n xs hm' hn']

theorem splitAll_nil (p : List Char) : splitAll p [] = [[]] := rfl

theorem splitAll_cons (p : List Char) (x : Char) (xs : List Char) :
    splitAll p (x :: xs) =
      if p.isPrefixOf (x :: xs) = true ∧ p ≠ [] then
        [] :: splitAll p (xs.drop (p.length - 1))
      else
        match splitAll p xs with
        | [] => [[x]]
        | t :: ts => (x :: t) :: ts := by
  show splitAllF p (xs.length + 1) (x :: xs) = _
  simp only [splitAllF]
  by_cases hc : p.isPrefixOf (x :: xs) = true ∧ p ≠ []
  · rw [if_pos hc, if_pos hc]
    have hd : (xs.drop (p.length - 1)).length ≤ xs.length := by
      simp [List.length_drop]
    rw [splitAllF_fuel p xs.length (xs.drop (p.length - 1)).length _ hd (le_refl _)]
    rfl
  · rw [if_neg hc, if_neg hc]
    rfl

/-! ### Decomposition lemmas: replacing / splitting around a marked occurrence -/

/-- Scanning `a ++ b` when no occurrence of `p` starts inside `a`:
the scanner copies `a` verbatim and continues on `b`. -/
theorem repAll_skip {p : List Char} (r : List Char) (hp : p ≠ []) :
    ∀ (a b : List Char), ¬ occursIn p (a ++ b.take (p.length - 1)) →
      repAll p r (a ++ b) = a ++ repAll p r b := by
  intro a
  induction a with
  | nil => intro b _; rfl
  | cons x a ih =>
    intro b h
    have hpre : p.isPrefixOf ((x :: a) ++ b) = false := by
      by_contra hne
      have := occursIn_of_isPrefixOf (p := p) (b := b) (x := x) (a := a)
        (Bool.of_not_eq_false hne)
      exact h this
    rw [List.cons_append, repAll_cons]
    rw [List.cons_append] at hpre
    rw [if_neg (by simp [hpre])]
    rw [ih b (not_occursIn_of_cons h)]
    rfl

/-- Scanning a string that starts with the pattern itself. -/
theorem repAll_head {p : List Char} (r : List Char) (hp : p ≠ []) (b : List Char) :
    repAll p r (p ++ b) = r ++ repAll p r b := by
  cases p with
  | nil => exact absurd rfl hp
  | cons q p =>
    rw [List.cons_append, repAll_cons]
    rw [if_pos ⟨(isPrefixOf_iff _ _).mpr ⟨b, by simp⟩, by simp⟩]
    have : ((p ++ b).drop ((q :: p).length - 1)) = b := by
      simp [List.drop_append_eq_append_drop]
    rw [this]

/-- A pattern-free string is left unchanged by `replace`. -/
theorem repAll_nooc {p : List Char} (r : List Char) (hp : p ≠ []) {xs : List Char}
    (h : ¬ occursIn p xs) : repAll p r xs = xs := by
  have := repAll_skip r hp xs [] (by simpa using h)
  simpa [repAll_nil] using this

/-- Replacing exactly the marked occurrence. -/
theorem repAll_at {p : List Char} (r : List Char) (hp : p ≠ []) (a b : List Char)
    (h : ¬ occursIn p (a ++ p.take (p.length - 1))) :
    repAll p r (a ++ p ++ b) = a ++ r ++ repAll p r b := by
  have htk : (p ++ b).take (p.length - 1) = p.take (p.length - 1) := by
    rw [List.take_append_eq_append_take]
    have : p.length - 1 - p.length = 0 := by omega
    simp [this]
  rw [List.append_assoc, repAll_skip r hp a (p ++ b) (by rw [htk]; exact h),
    repAll_head r hp, ← List.append_assoc]

theorem splitAll_ne_nil (p xs : List Char) : splitAll p xs ≠ [] := by
  cases xs with
  | nil => simp [splitAll_nil]
  | cons x xs =>
    rw [splitAll_cons]
    by_cases hc : p.isPrefixOf (x :: xs) = true ∧ p ≠ []
    · rw [if_pos hc]; simp
    · rw [if_neg hc]
      cases splitAll p xs <;> simp

/-- Splitting `a ++ b` when no occurrence of `p` starts inside `a`. -/
theorem splitAll_skip {p : List Char} (hp : p ≠ []) :
    ∀ (a b : List Char), ¬ occursIn p (a ++ b.take (p.length - 1)) →
      splitAll p (a ++ b) = (a ++ (splitAll p b).headD []) :: (splitAll p b).tail := by
  intro a
  induction a with
  | nil =>
    intro b _
    rcases hne : splitAll p b with _ | ⟨t, ts⟩
    · exact absurd hne (splitAll_ne_nil p b)
    · simp [hne]
  | cons x a ih =>
    intro b h
    have hpre : p.isPrefixOf ((x :: a) ++ b) = false := by
      by_contra hne
      have := occursIn_of_isPrefixOf (p := p) (b := b) (x := x) (a := a)
        (Bool.of_not_eq_false hne)
      exact h this
    rw [List.cons_append, splitAll_cons]
    rw [List.cons_append] at hpre
    rw [if_neg (by simp [hpre])]
    rw [ih b (not_occursIn_of_cons h)]
    rfl

/-- Splitting a string that starts with the pattern itself. -/
theorem splitAll_head {p : List Char} (hp : p ≠ []) (b : List Char) :
    splitAll p (p ++ b) = [] :: splitAll p b := by
  cases p with
  | nil => exact absurd rfl hp
  | cons q p =>
    rw [List.cons_append, splitAll_cons]
    rw [if_pos ⟨(isPrefixOf_iff _ _).mpr ⟨b, by simp⟩, by simp⟩]
    have : ((p ++ b).drop ((q :: p).length - 1)) = b := by
      simp [List.drop_append_eq_append_drop]
    rw [this]

/-- A pattern-free string is not split. -/
theorem splitAll_nooc {p : List Char} (hp : p ≠ []) {xs : List Char}
    (h : ¬ occursIn p xs) : splitAll p xs = [xs] := by
  have := splitAll_skip hp xs [] (by simpa using h)
  simpa [splitAll_nil] using this

/-! ### Location rewriting (`_safe_download`, lines 62–66)

Python:
```
if "github.com" in raw_url:
    parts = raw_url.split("github.com/")[1]
    parts = parts.replace("/blob/", "/").replace("/raw/", "/").split("?")[0]
    parts = parts.replace("%2F", "/")
    raw_url = f"https://raw.githubusercontent.com/{parts}"
```
The subscription `[1]` raises `IndexError` when the split yields fewer than
two pieces; this is modelled by the `Except` error branch. -/

def ghMark : List Char := "github.com".data

def ghSep : List Char := "github.com/".data

def blobSeg : List Char := "/blob/".data

def rawSeg : List Char := "/raw/".data

def slash : List Char := "/".data

def qMark : List Char := "?".data

def pctSep : List Char := "%2F".data

def rewriteLocation (raw_url : String) : Except String String :=
  if occursB ghMark raw_url.data then
    match (splitAll ghSep raw_url.data).get? 1 with
    | none => Except.error "list index out of range"
    | some parts0 =>
      let parts1 := repAll blobSeg slash parts0
      let parts2 := repAll rawSeg slash parts1
      let parts3 := (splitAll qMark parts2).headD []
      let parts4 := repAll pctSep slash parts3
      Except.ok ("https://raw.githubusercontent.com/" ++ String.mk parts4)
  else
    Except.ok raw_url

/-! ### Data model -/

/-- One element of the commit's `files` list, as the daemon reads it:
`f.get("status")`, `f["filename"]`, `f["raw_url"]`.  `none` models an
absent key (so subscription raises `KeyError`). -/
structure ChangedFile where
  status : Option String
  filename : Option String
  raw_url : Option String
deriving DecidableEq

/-- The commit-metadata JSON object: `commit.get("sha")`,
`commit.get("files")`. -/
structure Commit where
  sha : Option String
  files : Option (List ChangedFile)
deriving DecidableEq

/-- Process-wide configuration established at startup (lines 32–42).
`base_url` is the value computed on line 33; the daemon stores it but,
as `fetchCommitUrl` below shows, never consults it. -/
structure Config where
  root : String
  interval : Nat
  autoPush : Bool
  base_url : String
  github_repo : String
  github_token : String
  branch : String
deriving DecidableEq

/-- A UTC wall-clock reading (`datetime.utcnow()`). -/
structure UtcTime where
  year : Nat
  month : Nat
  day : Nat
  hour : Nat
  minute : Nat
  second : Nat
deriving DecidableEq

/-- Observable effects of one loop iteration, in program order. -/
inductive Event where
  | log (msg : String)
  | mkdirParents (dest : String)
  | retrieve (url : String) (dest : String)
  | writeState (sha : String)
  | runCmd (cmd : List String)
  | sleep (seconds : Nat)
deriving DecidableEq

/-- Outcome oracle for `urllib.request.urlretrieve`: `none` means the
download succeeded, `some msg` that it raised an exception rendered as
`msg`. -/
def DlOracle := String → String → Option String

/-! ### `_safe_download` (lines 57–70) -/

def failMsg (orig msg : String) : String :=
  "[AutoSync] ❌ Download failed for " ++ orig ++ ": " ++ msg

/-- `_safe_download(raw_url, dest)`.  The `mkdir` on line 59 precedes the
`try`; everything else is inside it, and the `except` swallows any
exception, so the function always returns normally. -/
def safe_download (dl : DlOracle) (raw_url dest : String) : List Event :=
  Event.mkdirParents dest ::
    match rewriteLocation raw_url with
    | Except.error e => [Event.log (failMsg raw_url e)]
    | Except.ok url =>
      Event.log ("[AutoSync] ⬇️ Fetching " ++ url) ::
        Event.retrieve url dest ::
          match dl url dest with
          | none => []
          | some m => [Event.log (failMsg raw_url m)]

/-! ### The sync loop body (`run_autosync_daemon`, lines 100–126) -/

/-- `f.get("status") in {"added", "modified"}`. -/
def goodStatus (f : ChangedFile) : Bool :=
  f.status == some "added" || f.status == some "modified"

/-- The events produced for one well-formed changed file inside the `for`
loop (download plus the per-file "Updated" line). -/
def perFile (dl : DlOracle) (root : String) (f : ChangedFile) : List Event :=
  match f.filename, f.raw_url with
  | some fn, some u =>
    safe_download dl u (root ++ "/" ++ fn) ++
      [Event.log ("[AutoSync] ✅ Updated " ++ fn)]
  | _, _ => []

/-- The `for f in files` loop (lines 111–115).  A missing `filename` or
`raw_url` key raises `KeyError`, aborting the loop; the second component
carries the escaped exception. -/
def processFiles (dl : DlOracle) (root : String) :
    List ChangedFile → List Event × Option String
  | [] => ([], none)
  | f :: rest =>
    if goodStatus f then
      match f.filename with
      | none => ([], some "KeyError: filename")
      | some fn =>
        match f.raw_url with
        | none => ([], some "KeyError: raw_url")
        | some u =>
          let evs := safe_download dl u (root ++ "/" ++ fn) ++
            [Event.log ("[AutoSync] ✅ Updated " ++ fn)]
          let r := processFiles dl root rest
          (evs ++ r.1, r.2)
    else
      processFiles dl root rest

/-- `datetime.utcnow().strftime("%Y-%m-%d %H:%M:%S")` for in-range field
values: four-digit year, two zero-padded digits for the other fields. -/
def two (n : Nat) : List Char := [Nat.digitChar (n / 10 % 10), Nat.digitChar (n % 10)]

def four (n : Nat) : List Char :=
  [Nat.digitChar (n / 1000 % 10), Nat.digitChar (n / 100 % 10),
    Nat.digitChar (n / 10 % 10), Nat.digitChar (n % 10)]

def fmtUtc (t : UtcTime) : String :=
  String.mk (four t.year ++ ['-'] ++ two t.month ++ ['-'] ++ two t.day ++ [' '] ++
    two t.hour ++ [':'] ++ two t.minute ++ [':'] ++ two t.second)

/-- `_git_push_auto` (lines 72–91).  Each command is run through
`subprocess.run(..., check=False)`: a non-zero exit status is neither
raised nor examined, which is why the `exit` oracle is never consulted.
Nothing inside the `try` can raise, so the `except` branch is dead. -/
def gitPushAuto (exit : Nat → Bool) (cfg : Config) (now : UtcTime) : List Event :=
  let msg := "Automated patch sync: " ++ fmtUtc now
  let remote := "https://" ++ cfg.github_token ++ "@github.com/" ++ cfg.github_repo ++ ".git"
  [Event.runCmd ["git", "config", "--global", "user.email", "auto@prosperitytoolbox.dev"],
    Event.runCmd ["git", "config", "--global", "user.name", "AutoSync Daemon"],
    Event.runCmd ["git", "pull", remote, cfg.branch, "--rebase"],
    Event.runCmd ["git", "add", "."],
    Event.runCmd ["git", "commit", "-m", msg],
    Event.runCmd ["git", "push", remote, cfg.branch],
    Event.log ("[AutoSync] 🚀 Auto-pushed: " ++ msg)]

/-- Result of the `try` body of one iteration: the events it performed,
the resulting state-file content, and the exception (if any) escaping to
the outer `except` handler. -/
structure BodyResult where
  events : List Event
  state : Option String
  err : Option String
deriving DecidableEq

/-- The `try` body (lines 102–120).  `fetch` is the outcome of
`_fetch_commit()`; `st` is the state-file content (`none` when the file
does not exist).  Note `sha[:8]` and `COMMIT_FILE.write_text(sha)` raise
`TypeError` when `sha` is `None`. -/
def cycleBody (dl : DlOracle) (exit : Nat → Bool) (cfg : Config)
    (fetch : Except String Commit) (st : Option String) (now : UtcTime) :
    BodyResult :=
  match fetch with
  | Except.error e => ⟨[], st, some e⟩
  | Except.ok commit =>
    let prev : Option String := st.map pyStrip
    if commit.sha == prev then
      match commit.sha with
      | some s =>
        ⟨[Event.log ("[AutoSync] No new commits (sha=" ++ pyTake s 8 ++ ")")], st, none⟩
      | none => ⟨[], st, some "TypeError: NoneType is not subscriptable"⟩
    else
      let files := commit.files.getD []
      let pf := processFiles dl cfg.root files
      match pf.2 with
      | some e => ⟨pf.1, st, some e⟩
      | none =>
        match commit.sha with
        | none => ⟨pf.1, st, some "TypeError: data must be str, not None"⟩
        | some s =>
          let evs := pf.1 ++ [Event.writeState s, Event.log "[AutoSync] 🕒 Sync complete"]
          if cfg.autoPush then
            ⟨evs ++ gitPushAuto exit cfg now, some s, none⟩
          else
            ⟨evs, some s, none⟩

/-- One full iteration of the `while True` loop: the `try` body, the
outer `except` handler (which logs the error and a stack trace), and the
unconditional end-of-cycle sleep. -/
def runCycle (dl : DlOracle) (exit : Nat → Bool) (cfg : Config)
    (fetch : Except String Commit) (st : Option String) (now : UtcTime) :
    List Event × Option String :=
  let b := cycleBody dl exit cfg fetch st now
  match b.err with
  | none => (b.events ++ [Event.sleep cfg.interval], b.state)
  | some e =>
    (b.events ++ [Event.log ("[AutoSync] ❌ Error: " ++ e),
      Event.log "traceback", Event.sleep cfg.interval], b.state)

/-- `_fetch_commit`'s request URL (line 52): built from the fixed
`api.github.com` host; the configured base endpoint does not appear. -/
def fetchCommitUrl (cfg : Config) : String :=
  "https://api.github.com/repos/" ++ cfg.github_repo ++ "/commits/" ++ cfg.branch

/-- `BASE_URL = os.getenv("BASE_URL", "http://127.0.0.1:8000").rstrip("/")`
(line 33). -/
def loadBaseUrl (env : Option String) : String :=
  let s := env.getD "http://127.0.0.1:8000"
  String.mk (((s.data.reverse.dropWhile (fun c => c == '/'))).reverse)

/-! ### Helper lemmas about the loop body -/

theorem not_occursIn_of_occursB {p xs : List Char} (h : occursB p xs = false) :
    ¬ occursIn p xs := by
  intro ho
  rw [(occursB_iff p xs).mpr ho] at h
  cases h

/-- Well-formedness of a changed-file list: every added/modified
descriptor carries both a `filename` and a `raw_url` key (as the data
model requires of a `ChangedFileDescriptor`). -/
def wfFiles (files : List ChangedFile) : Bool :=
  files.all (fun f => !goodStatus f || (f.filename.isSome && f.raw_url.isSome))

theorem processFiles_wf (dl : DlOracle) (root : String) :
    ∀ files : List ChangedFile, wfFiles files = true →
      processFiles dl root files =
        (((files.filter goodStatus).map (perFile dl root)).flatten, none) := by
  intro files
  induction files with
  | nil => intro _; rfl
  | cons f rest ih =>
    intro h
    rw [wfFiles, List.all_cons, Bool.and_eq_true] at h
    obtain ⟨hf, hrest⟩ := h
    by_cases hg : goodStatus f = true
    · rw [hg] at hf
      simp only [Bool.not_true, Bool.false_or, Bool.and_eq_true, Option.isSome_iff_exists] at hf
      obtain ⟨⟨fn, hfn⟩, u, hu⟩ := hf
      simp only [processFiles, hg, if_true, hfn, hu, ih hrest,
        List.filter_cons_of_pos hg, List.map_cons, List.flatten_cons, perFile]
    · simp only [processFiles, hg, if_false, Bool.false_eq_true,
        List.filter_cons_of_neg hg, ih (by exact hrest)]

theorem processFiles_malformed (dl : DlOracle) (root : String)
    (f : ChangedFile) (hgood : goodStatus f = true)
    (hmal : f.filename = none ∨ f.raw_url = none) :
    ∀ pre : List ChangedFile, wfFiles pre = true → ∀ post : List ChangedFile,
      ∃ msg, processFiles dl root (pre ++ f :: post) =
        (((pre.filter goodStatus).map (perFile dl root)).flatten, some msg) := by
  intro pre
  induction pre with
  | nil =>
    intro _ post
    rcases hmal with hm | hm
    · exact ⟨"KeyError: filename", by simp [processFiles, hgood, hm]⟩
    · rcases hfn : f.filename with _ | fn
      · exact ⟨"KeyError: filename", by simp [processFiles, hgood, hfn]⟩
      · exact ⟨"KeyError: raw_url", by simp [processFiles, hgood, hfn, hm]⟩
  | cons g rest ih =>
    intro h post
    rw [wfFiles, List.all_cons, Bool.and_eq_true] at h
    obtain ⟨hg', hrest⟩ := h
    obtain ⟨msg, hmsg⟩ := ih hrest post
    by_cases hg : goodStatus g = true
    · rw [hg] at hg'
      simp only [Bool.not_true, Bool.false_or, Bool.and_eq_true, Option.isSome_iff_exists] at hg'
      obtain ⟨⟨fn, hfn⟩, u, hu⟩ := hg'
      refine ⟨msg, ?_⟩
      simp only [List.cons_append, processFiles, hg, if_true, hfn, hu, List.append_eq, hmsg,
        List.filter_cons_of_pos hg, List.map_cons, List.flatten_cons, perFile, List.append_assoc]
    · refine ⟨msg, ?_⟩
      simp only [List.cons_append, processFiles, hg, if_false, Bool.false_eq_true,
        List.filter_cons_of_neg hg, List.append_eq, hmsg]

/-- The events of the sync branch (hash differs), for a well-formed file
list: per-file traces in order, then the state write and the completion
log, then (when push is enabled) the publisher's trace. -/
theorem cycleBody_new (dl : DlOracle) (exit : Nat → Bool) (cfg : Config)
    (st : Option String) (now : UtcTime) (s : String) (files : List ChangedFile)
    (hwf : wfFiles files = true)
    (hnew : (some s == st.map pyStrip) = false) :
    cycleBody dl exit cfg (Except.ok ⟨some s, some files⟩) st now =
      ⟨((files.filter goodStatus).map (perFile dl cfg.root)).flatten ++
          [Event.writeState s, Event.log "[AutoSync] 🕒 Sync complete"] ++
          (if cfg.autoPush then gitPushAuto exit cfg now else []),
        some s, none⟩ := by
  simp only [cycleBody, hnew, Bool.false_eq_true, if_false, Option.getD_some,
    processFiles_wf dl cfg.root files hwf]
  by_cases hp : cfg.autoPush = true
  · simp [hp, List.append_assoc]
  · simp only [Bool.not_eq_true] at hp
    simp [hp]

theorem getLast_concat {α : Type} (xs : List α) (y : α) :
    (xs ++ [y]).getLast? = some y := by
  induction xs with
  | nil => rfl
  | cons x xs ih =>
    rw [List.cons_append]
    cases xs with
    | nil => rfl
    | cons z zs =>
      rw [List.cons_append, List.getLast?_cons_cons]
      rw [List.cons_append] at ih
      exact ih

/-- Event classifier: is this a console log line? -/
def isLog : Event → Bool
  | Event.log _ => true
  | _ => false

/-- A log line that reports a failure (all of the daemon's failure logs
contain the word "fail": "Download failed", "Push failed"). -/
def isFailLog : Event → Bool
  | Event.log m => occursB "fail".data m.data
  | _ => false

/-! ### Claim theorems -/

/-- C6: if the commit fetch fails with any error, the cycle performs no
file writes and leaves the state file unchanged, the error is logged, and
the loop still reaches the sleep phase; more generally, every cycle —
whatever the fetch outcome, file list or download outcomes — ends at the
sleep phase, so no exception raised inside a cycle body terminates the
loop. -/
theorem C6_fetch_error_reaches_sleep (dl : DlOracle) (exit : Nat → Bool)
    (cfg : Config) (st : Option String) (now : UtcTime) :
    (∀ e : String,
      runCycle dl exit cfg (Except.error e) st now =
        ([Event.log ("[AutoSync] ❌ Error: " ++ e), Event.log "traceback",
          Event.sleep cfg.interval], st)) ∧
    (∀ fetch : Except String Commit,
      ((runCycle dl exit cfg fetch st now).1).getLast? =
        some (Event.sleep cfg.interval)) := by
  constructor
  · intro e; rfl
  · intro fetch
    have key : ∀ (xs : List Event) (e : String),
        (xs ++ [Event.log ("[AutoSync] ❌ Error: " ++ e), Event.log "traceback",
          Event.sleep cfg.interval]).getLast? = some (Event.sleep cfg.interval) := by
      intro xs e
      rw [show [Event.log ("[AutoSync] ❌ Error: " ++ e), Event.log "traceback",
          Event.sleep cfg.interval] =
          [Event.log ("[AutoSync] ❌ Error: " ++ e), Event.log "traceback"] ++
            [Event.sleep cfg.interval] from rfl,
        ← List.append_assoc]
      exact getLast_concat _ _
    rcases herr : (cycleBody dl exit cfg fetch st now).err with _ | e
    · simp only [runCycle, herr]
      exact getLast_concat _ _
    · simp only [runCycle, herr]
      exact key _ e

/-- C7: a cycle whose fetched head commit hash equals the persisted hash
is a no-op: the trace is exactly the "no new commits" log followed by the
sleep, and the state file is unchanged; consequently a second consecutive
cycle against the same head is identical to the first. -/
theorem C7_unchanged_head_no_op (dl : DlOracle) (exit : Nat → Bool)
    (cfg : Config) (now : UtcTime) (commit : Commit) (st : Option String)
    (s : String) (h1 : commit.sha = some s) (h2 : st.map pyStrip = some s) :
    runCycle dl exit cfg (Except.ok commit) st now =
      ([Event.log ("[AutoSync] No new commits (sha=" ++ pyTake s 8 ++ ")"),
        Event.sleep cfg.interval], st) ∧
    runCycle dl exit cfg (Except.ok commit)
        ((runCycle dl exit cfg (Except.ok commit) st now).2) now =
      runCycle dl exit cfg (Except.ok commit) st now := by
  have heq : runCycle dl exit cfg (Except.ok commit) st now =
      ([Event.log ("[AutoSync] No new commits (sha=" ++ pyTake s 8 ++ ")"),
        Event.sleep cfg.interval], st) := by
    simp [runCycle, cycleBody, h1, h2]
  refine ⟨heq, ?_⟩
  have h2' : (runCycle dl exit cfg (Except.ok commit) st now).2 = st := by rw [heq]
  rw [h2']

/-- C7 witness: concrete no-op cycle. -/
theorem C7_unchanged_head_no_op_witness :
    runCycle (fun _ _ => none) (fun _ => false)
        ⟨"/app", 300, false, "http://127.0.0.1:8000", "octo/hub", "", "main"⟩
        (Except.ok ⟨some "abcdef1234", none⟩) (some "abcdef1234")
        ⟨2026, 10, 12, 0, 0, 0⟩ =
      ([Event.log ("[AutoSync] No new commits (sha=" ++ pyTake "abcdef1234" 8 ++ ")"),
        Event.sleep 300], some "abcdef1234") :=
  (C7_unchanged_head_no_op (fun _ _ => none) (fun _ => false)
    ⟨"/app", 300, false, "http://127.0.0.1:8000", "octo/hub", "", "main"⟩
    ⟨2026, 10, 12, 0, 0, 0⟩ ⟨some "abcdef1234", none⟩ (some "abcdef1234")
    "abcdef1234" rfl (by decide)).1

/-- C9: the claim says the configured base API endpoint redirects the
per-cycle commit-metadata request; in the code `BASE_URL` is read on
line 33 and then never used — `_fetch_commit` always targets the fixed
`api.github.com` host, whatever the configuration says. -/
theorem C9_base_url_ignored :
    (∀ cfg cfg' : Config, cfg.github_repo = cfg'.github_repo →
      cfg.branch = cfg'.branch → fetchCommitUrl cfg = fetchCommitUrl cfg') ∧
    fetchCommitUrl ⟨"/app", 300, false, loadBaseUrl (some "http://127.0.0.1:9999"),
        "octo/hub", "", "main"⟩ =
      "https://api.github.com/repos/octo/hub/commits/main" ∧
    occursB (loadBaseUrl (some "http://127.0.0.1:9999")).data
      "https://api.github.com/repos/octo/hub/commits/main".data = false ∧
    occursB (loadBaseUrl none).data
      "https://api.github.com/repos/octo/hub/commits/main".data = false := by
  refine ⟨?_, by rfl, by decide, by decide⟩
  intro cfg cfg' hr hb
  simp [fetchCommitUrl, hr, hb]

/-- C9 witness: two configurations that differ only in the base endpoint
produce the identical request URL. -/
theorem C9_base_url_ignored_witness :
    fetchCommitUrl ⟨"/app", 300, false, "http://127.0.0.1:8000", "octo/hub", "", "main"⟩ =
      fetchCommitUrl ⟨"/app", 300, false, "http://127.0.0.1:9999", "octo/hub", "", "main"⟩ :=
  C9_base_url_ignored.1
    ⟨"/app", 300, false, "http://127.0.0.1:8000", "octo/hub", "", "main"⟩
    ⟨"/app", 300, false, "http://127.0.0.1:9999", "octo/hub", "", "main"⟩ rfl rfl

/-- C4 counterexample: a `github.com` release-asset URL references no
blob/raw viewer path, yet the download helper does not use it verbatim —
it rewrites it onto the `raw.githubusercontent.com` host. -/
theorem C4_github_url_not_verbatim_counterexample :
    rewriteLocation "https://github.com/octo/hub/releases/download/v1.0/tool.tar.gz" =
      Except.ok "https://raw.githubusercontent.com/octo/hub/releases/download/v1.0/tool.tar.gz" ∧
    "https://raw.githubusercontent.com/octo/hub/releases/download/v1.0/tool.tar.gz" ≠
      "https://github.com/octo/hub/releases/download/v1.0/tool.tar.gz" ∧
    occursB blobSeg "https://github.com/octo/hub/releases/download/v1.0/tool.tar.gz".data = false ∧
    occursB rawSeg "https://github.com/octo/hub/releases/download/v1.0/tool.tar.gz".data = false :=
  ⟨rfl, by decide, by decide, by decide⟩

/-- C4 (amended): a fetch location is used verbatim exactly when it does
not contain the substring "github.com" (rather than when it is not a
blob/raw viewer URL): such a location passes through the rewriter
unchanged and the URL actually retrieved is the location itself. -/
theorem C4_non_github_used_verbatim (dl : DlOracle) (url dest : String)
    (h : occursB ghMark url.data = false) :
    rewriteLocation url = Except.ok url ∧
    Event.retrieve url dest ∈ safe_download dl url dest := by
  have hrw : rewriteLocation url = Except.ok url := by
    simp [rewriteLocation, h]
  refine ⟨hrw, ?_⟩
  simp only [safe_download, hrw]
  rcases dl url dest with _ | m <;> simp

/-- C4 witness: a non-github location is requested exactly as given. -/
theorem C4_non_github_used_verbatim_witness :
    rewriteLocation "https://files.example/data.bin" =
      Except.ok "https://files.example/data.bin" ∧
    Event.retrieve "https://files.example/data.bin" "/app/data.bin" ∈
      safe_download (fun _ _ => none) "https://files.example/data.bin" "/app/data.bin" :=
  C4_non_github_used_verbatim (fun _ _ => none) "https://files.example/data.bin"
    "/app/data.bin" (by decide)

/-- C1: in a sync cycle that applies a new commit, download failures are
caught and logged inside the per-file helper, every added/modified file
is still attempted (each file's complete helper trace — directory
creation, fetch attempt, and failure log when its download fails —
appears in the cycle's trace), and the new commit hash is still written:
the final state is the new hash for every download-outcome oracle,
failures included. -/
theorem C1_partial_failure_tolerated (dl : DlOracle) (exit : Nat → Bool)
    (cfg : Config) (st : Option String) (now : UtcTime) (s : String)
    (files : List ChangedFile) (hwf : wfFiles files = true)
    (hnew : (some s == st.map pyStrip) = false) :
    (runCycle dl exit cfg (Except.ok ⟨some s, some files⟩) st now).2 = some s ∧
    Event.writeState s ∈ (runCycle dl exit cfg (Except.ok ⟨some s, some files⟩) st now).1 ∧
    ∀ f ∈ files, goodStatus f = true →
      ∀ e ∈ perFile dl cfg.root f,
        e ∈ (runCycle dl exit cfg (Except.ok ⟨some s, some files⟩) st now).1 := by
  have hbody := cycleBody_new dl exit cfg st now s files hwf hnew
  refine ⟨?_, ?_, ?_⟩
  · simp [runCycle, hbody]
  · simp [runCycle, hbody]
  · intro f hf hg e he
    simp only [runCycle, hbody]
    have : e ∈ ((files.filter goodStatus).map (perFile dl cfg.root)).flatten := by
      rw [List.mem_flatten]
      exact ⟨perFile dl cfg.root f,
        List.mem_map.mpr ⟨f, List.mem_filter.mpr ⟨hf, hg⟩, rfl⟩, he⟩
    simp [this]

/-- C1 witness: two added files, the first one's download fails, the
second is still attempted and the new hash is persisted. -/
theorem C1_partial_failure_tolerated_witness :
    (runCycle (fun u _ => if u == "https://files.example/a.txt" then some "boom" else none)
        (fun _ => false)
        ⟨"/app", 300, false, "http://127.0.0.1:8000", "octo/hub", "", "main"⟩
        (Except.ok ⟨some "new1",
          some [⟨some "added", some "a.txt", some "https://files.example/a.txt"⟩,
            ⟨some "modified", some "b.txt", some "https://files.example/b.txt"⟩]⟩)
        (some "old1") ⟨2026, 10, 12, 0, 0, 0⟩).2 = some "new1" ∧
    Event.writeState "new1" ∈
      (runCycle (fun u _ => if u == "https://files.example/a.txt" then some "boom" else none)
        (fun _ => false)
        ⟨"/app", 300, false, "http://127.0.0.1:8000", "octo/hub", "", "main"⟩
        (Except.ok ⟨some "new1",
          some [⟨some "added", some "a.txt", some "https://files.example/a.txt"⟩,
            ⟨some "modified", some "b.txt", some "https://files.example/b.txt"⟩]⟩)
        (some "old1") ⟨2026, 10, 12, 0, 0, 0⟩).1 ∧
    Event.retrieve "https://files.example/b.txt" "/app/b.txt" ∈
      (runCycle (fun u _ => if u == "https://files.example/a.txt" then some "boom" else none)
        (fun _ => false)
        ⟨"/app", 300, false, "http://127.0.0.1:8000", "octo/hub", "", "main"⟩
        (Except.ok ⟨some "new1",
          some [⟨some "added", some "a.txt", some "https://files.example/a.txt"⟩,
            ⟨some "modified", some "b.txt", some "https://files.example/b.txt"⟩]⟩)
        (some "old1") ⟨2026, 10, 12, 0, 0, 0⟩).1 := by
  have h := C1_partial_failure_tolerated
    (fun u _ => if u == "https://files.example/a.txt" then some "boom" else none)
    (fun _ => false)
    ⟨"/app", 300, false, "http://127.0.0.1:8000", "octo/hub", "", "main"⟩
    (some "old1") ⟨2026, 10, 12, 0, 0, 0⟩ "new1"
    [⟨some "added", some "a.txt", some "https://files.example/a.txt"⟩,
      ⟨some "modified", some "b.txt", some "https://files.example/b.txt"⟩]
    (by decide) (by decide)
  refine ⟨h.1, h.2.1, ?_⟩
  refine h.2.2 ⟨some "modified", some "b.txt", some "https://files.example/b.txt"⟩
    (by decide) (by decide) _ ?_
  decide

/-- C2 counterexample: a cycle whose only added file fails to download
still writes the new commit hash to the state file, so the persisted
SyncState gets ahead of the working tree's actually-applied content. -/
theorem C2_state_ahead_counterexample :
    (runCycle (fun _ _ => some "boom") (fun _ => false)
        ⟨"/app", 300, false, "http://127.0.0.1:8000", "octo/hub", "", "main"⟩
        (Except.ok ⟨some "new1",
          some [⟨some "added", some "a.txt", some "https://files.example/a.txt"⟩]⟩)
        (some "old1") ⟨2026, 10, 12, 0, 0, 0⟩).2 = some "new1" ∧
    Event.log (failMsg "https://files.example/a.txt" "boom") ∈
      (runCycle (fun _ _ => some "boom") (fun _ => false)
        ⟨"/app", 300, false, "http://127.0.0.1:8000", "octo/hub", "", "main"⟩
        (Except.ok ⟨some "new1",
          some [⟨some "added", some "a.txt", some "https://files.example/a.txt"⟩]⟩)
        (some "old1") ⟨2026, 10, 12, 0, 0, 0⟩).1 :=
  ⟨rfl, by decide⟩

/-- C2 (amended): the persisted hash reflects the most recent commit
whose cycle reached the persist step — not necessarily a fully applied
one: for every download-outcome oracle (however many files fail), a cycle
over a new commit with well-formed descriptors ends with the new hash on
disk. -/
theorem C2_persist_regardless_of_failures (dl : DlOracle) (exit : Nat → Bool)
    (cfg : Config) (st : Option String) (now : UtcTime) (s : String)
    (files : List ChangedFile) (hwf : wfFiles files = true)
    (hnew : (some s == st.map pyStrip) = false) :
    (runCycle dl exit cfg (Except.ok ⟨some s, some files⟩) st now).2 = some s := by
  simp [runCycle, cycleBody_new dl exit cfg st now s files hwf hnew]

/-- C2 amended-claim witness: the failing-download cycle still persists. -/
theorem C2_persist_regardless_of_failures_witness :
    (runCycle (fun _ _ => some "boom") (fun _ => false)
        ⟨"/app", 300, false, "http://127.0.0.1:8000", "octo/hub", "", "main"⟩
        (Except.ok ⟨some "new2",
          some [⟨some "added", some "a.txt", some "https://files.example/a.txt"⟩]⟩)
        (some "old2") ⟨2026, 10, 12, 0, 0, 0⟩).2 = some "new2" :=
  C2_persist_regardless_of_failures (fun _ _ => some "boom") (fun _ => false)
    ⟨"/app", 300, false, "http://127.0.0.1:8000", "octo/hub", "", "main"⟩
    (some "old2") ⟨2026, 10, 12, 0, 0, 0⟩ "new2"
    [⟨some "added", some "a.txt", some "https://files.example/a.txt"⟩]
    (by decide) (by decide)

/-- C5: in a cycle over a new commit with well-formed descriptors, the
trace is exactly the per-file helper traces of the added/modified
descriptors, in list order, followed by the state write, completion log,
optional publisher trace and the sleep — so a download is attempted
exactly for descriptors classified added or modified, and removed/other
descriptors contribute nothing. -/
theorem C5_downloads_exactly_added_modified (dl : DlOracle) (exit : Nat → Bool)
    (cfg : Config) (st : Option String) (now : UtcTime) (s : String)
    (files : List ChangedFile) (hwf : wfFiles files = true)
    (hnew : (some s == st.map pyStrip) = false) :
    (runCycle dl exit cfg (Except.ok ⟨some s, some files⟩) st now).1 =
      ((files.filter goodStatus).map (perFile dl cfg.root)).flatten ++
        [Event.writeState s, Event.log "[AutoSync] 🕒 Sync complete"] ++
        (if cfg.autoPush then gitPushAuto exit cfg now else []) ++
        [Event.sleep cfg.interval] := by
  simp [runCycle, cycleBody_new dl exit cfg st now s files hwf hnew]

/-- C5 witness: one added, one removed, one unclassified file — only the
added one is downloaded. -/
theorem C5_downloads_exactly_added_modified_witness :
    (runCycle (fun _ _ => none) (fun _ => false)
        ⟨"/app", 300, false, "http://127.0.0.1:8000", "octo/hub", "", "main"⟩
        (Except.ok ⟨some "new3",
          some [⟨some "added", some "a.txt", some "https://files.example/a.txt"⟩,
            ⟨some "removed", some "gone.txt", some "https://files.example/gone.txt"⟩,
            ⟨some "renamed", some "c.txt", some "https://files.example/c.txt"⟩]⟩)
        (some "old3") ⟨2026, 10, 12, 0, 0, 0⟩).1 =
      (([⟨some "added", some "a.txt", some "https://files.example/a.txt"⟩,
          ⟨some "removed", some "gone.txt", some "https://files.example/gone.txt"⟩,
          ⟨some "renamed", some "c.txt", some "https://files.example/c.txt"⟩].filter
            goodStatus).map
          (perFile (fun _ _ => none) "/app")).flatten ++
        [Event.writeState "new3", Event.log "[AutoSync] 🕒 Sync complete"] ++
        (if false then gitPushAuto (fun _ => false)
          ⟨"/app", 300, false, "http://127.0.0.1:8000", "octo/hub", "", "main"⟩
          ⟨2026, 10, 12, 0, 0, 0⟩ else []) ++
        [Event.sleep 300] :=
  C5_downloads_exactly_added_modified (fun _ _ => none) (fun _ => false)
    ⟨"/app", 300, false, "http://127.0.0.1:8000", "octo/hub", "", "main"⟩
    (some "old3") ⟨2026, 10, 12, 0, 0, 0⟩ "new3"
    [⟨some "added", some "a.txt", some "https://files.example/a.txt"⟩,
      ⟨some "removed", some "gone.txt", some "https://files.example/gone.txt"⟩,
      ⟨some "renamed", some "c.txt", some "https://files.example/c.txt"⟩]
    (by decide) (by decide)

/-- C10: an added/modified descriptor missing its filename or fetch
location raises a lookup error that aborts the remaining downloads of the
cycle: the trace contains only the per-file traces of the well-formed
prefix (nothing from the malformed descriptor or the suffix, and no state
write), the error is logged at the loop's outermost boundary, the state
file keeps its previous value, and the daemon proceeds to sleep. -/
theorem C10_malformed_descriptor_aborts (dl : DlOracle) (exit : Nat → Bool)
    (cfg : Config) (st : Option String) (now : UtcTime) (s : String)
    (pre post : List ChangedFile) (f : ChangedFile)
    (hwfpre : wfFiles pre = true) (hgood : goodStatus f = true)
    (hmal : f.filename = none ∨ f.raw_url = none)
    (hnew : (some s == st.map pyStrip) = false) :
    ∃ msg, runCycle dl exit cfg (Except.ok ⟨some s, some (pre ++ f :: post)⟩) st now =
      (((pre.filter goodStatus).map (perFile dl cfg.root)).flatten ++
        [Event.log ("[AutoSync] ❌ Error: " ++ msg), Event.log "traceback",
          Event.sleep cfg.interval], st) := by
  obtain ⟨msg, hm⟩ := processFiles_malformed dl cfg.root f hgood hmal pre hwfpre post
  refine ⟨msg, ?_⟩
  simp [runCycle, cycleBody, hnew, hm]

/-- C10 witness: a good file, then a descriptor with no `raw_url`, then
another good file — only the first file's trace appears, the state keeps
its old value, and the cycle ends in the error logs and the sleep. -/
theorem C10_malformed_descriptor_aborts_witness :
    ∃ msg, runCycle (fun _ _ => none) (fun _ => false)
        ⟨"/app", 300, false, "http://127.0.0.1:8000", "octo/hub", "", "main"⟩
        (Except.ok ⟨some "new4",
          some ([⟨some "added", some "a.txt", some "https://files.example/a.txt"⟩] ++
            ⟨some "modified", some "b.txt", none⟩ ::
              [⟨some "added", some "c.txt", some "https://files.example/c.txt"⟩])⟩)
        (some "old4") ⟨2026, 10, 12, 0, 0, 0⟩ =
      ((([⟨some "added", some "a.txt", some "https://files.example/a.txt"⟩].filter
            goodStatus).map
          (perFile (fun _ _ => none) "/app")).flatten ++
        [Event.log ("[AutoSync] ❌ Error: " ++ msg), Event.log "traceback",
          Event.sleep 300], some "old4") :=
  C10_malformed_descriptor_aborts (fun _ _ => none) (fun _ => false)
    ⟨"/app", 300, false, "http://127.0.0.1:8000", "octo/hub", "", "main"⟩
    (some "old4") ⟨2026, 10, 12, 0, 0, 0⟩ "new4"
    [⟨some "added", some "a.txt", some "https://files.example/a.txt"⟩]
    [⟨some "added", some "c.txt", some "https://files.example/c.txt"⟩]
    ⟨some "modified", some "b.txt", none⟩
    (by decide) (by decide) (Or.inr rfl) (by decide)

theorem digitChar_mod_isDigit (n : Nat) : (Nat.digitChar (n % 10)).isDigit = true := by
  have h : n % 10 < 10 := Nat.mod_lt _ (by norm_num)
  have hall : ∀ m, m < 10 → (Nat.digitChar m).isDigit = true := by decide
  exact hall _ h

/-- C8 counterexample: with the commit step (command index 4) failing,
the publisher's trace contains no log line reporting a failure — a
failing step is tolerated but not logged (`subprocess.run` is invoked
with `check=False` and its result is discarded). -/
theorem C8_failed_step_not_logged_counterexample :
    ((fun i => decide (i = 4)) 4 = true) ∧
    ((gitPushAuto (fun i => decide (i = 4))
        ⟨"/app", 300, true, "http://127.0.0.1:8000", "octo/hub", "tok", "main"⟩
        ⟨2026, 10, 12, 3, 4, 5⟩).all (fun e => !(isFailLog e))) = true :=
  ⟨rfl, by decide⟩

/-- C8 (amended): when push is enabled the publisher runs its external
commands in a fixed order — committer identity (email then name), pull
with rebase, stage all, commit with a message containing the UTC
timestamp formatted `YYYY-MM-DD HH:MM:SS`, push — and a failing step is
tolerated silently: the trace is independent of which steps fail, every
subsequent command still runs, and the only log line the publisher emits
is the final "Auto-pushed" summary (no per-step failure log). -/
theorem C8_push_steps_in_order_failures_silent (e1 e2 : Nat → Bool)
    (cfg : Config) (now : UtcTime) :
    gitPushAuto e1 cfg now = gitPushAuto e2 cfg now ∧
    gitPushAuto e1 cfg now =
      [Event.runCmd ["git", "config", "--global", "user.email",
          "auto@prosperitytoolbox.dev"],
        Event.runCmd ["git", "config", "--global", "user.name", "AutoSync Daemon"],
        Event.runCmd ["git", "pull",
          "https://" ++ cfg.github_token ++ "@github.com/" ++ cfg.github_repo ++ ".git",
          cfg.branch, "--rebase"],
        Event.runCmd ["git", "add", "."],
        Event.runCmd ["git", "commit", "-m", "Automated patch sync: " ++ fmtUtc now],
        Event.runCmd ["git", "push",
          "https://" ++ cfg.github_token ++ "@github.com/" ++ cfg.github_repo ++ ".git",
          cfg.branch],
        Event.log ("[AutoSync] 🚀 Auto-pushed: " ++
          ("Automated patch sync: " ++ fmtUtc now))] ∧
    (gitPushAuto e1 cfg now).filter isLog =
      [Event.log ("[AutoSync] 🚀 Auto-pushed: " ++
        ("Automated patch sync: " ++ fmtUtc now))] ∧
    ∃ Y M D H Mi S : List Char,
      (fmtUtc now).data =
        Y ++ "-".data ++ M ++ "-".data ++ D ++ " ".data ++ H ++ ":".data ++
          Mi ++ ":".data ++ S ∧
      Y.length = 4 ∧ M.length = 2 ∧ D.length = 2 ∧ H.length = 2 ∧
      Mi.length = 2 ∧ S.length = 2 ∧
      (Y ++ M ++ D ++ H ++ Mi ++ S).all Char.isDigit = true := by
  refine ⟨rfl, rfl, by simp [gitPushAuto, isLog], ?_⟩
  refine ⟨four now.year, two now.month, two now.day, two now.hour,
    two now.minute, two now.second, ?_, rfl, rfl, rfl, rfl, rfl, rfl, ?_⟩
  · simp [fmtUtc, four, two]
  · simp [four, two, digitChar_mod_isDigit]

/-! ### Lemmas for the URL-rewriting claims -/

theorem data_mk (l : List Char) : (String.mk l).data = l := rfl

theorem ghMark_in_url (tail : String) :
    occursB ghMark ("https://github.com/" ++ tail).data = true := by
  rw [occursB_iff]
  refine ⟨"https://".data, "/".data ++ tail.data, ?_⟩
  rw [data_append]
  have h0 : ("https://github.com/" : String).data =
      "https://".data ++ (ghMark ++ "/".data) := by decide
  rw [h0]
  simp [List.append_assoc]

/-- Splitting a well-behaved viewer URL on the host separator yields the
post-host remainder as element 1. -/
theorem split_url (tail : String) (h : occursB ghSep tail.data = false) :
    (splitAll ghSep ("https://github.com/" ++ tail).data).get? 1 = some tail.data := by
  have hdata : ("https://github.com/" ++ tail).data =
      "https://".data ++ (ghSep ++ tail.data) := by
    rw [data_append]
    have h0 : ("https://github.com/" : String).data = "https://".data ++ ghSep := by decide
    rw [h0, List.append_assoc]
  have hno : ¬ occursIn ghSep
      ("https://".data ++ (ghSep ++ tail.data).take (ghSep.length - 1)) := by
    have h1 : (ghSep ++ tail.data).take (ghSep.length - 1) = "github.com".data := by
      have h2 : ghSep.length - 1 = 10 := by decide
      rw [h2, List.take_append_eq_append_take]
      have h3 : (10 : Nat) - ghSep.length = 0 := by decide
      rw [h3]
      have h4 : ghSep.take 10 = "github.com".data := by decide
      simp [h4]
    rw [h1]
    exact not_occursIn_of_occursB (by decide)
  rw [hdata, splitAll_skip (by decide) _ _ hno, splitAll_head (by decide),
    splitAll_nooc (by decide) (not_occursIn_of_occursB h)]
  rfl

/-- The query-strip and percent-decode steps on a rewritten remainder that
contains no `?` and whose non-path part is `%2F`-free. -/
theorem rewrite_tail_common (O R B P : String)
    (hq : occursB qMark (O ++ "/" ++ R ++ "/" ++ B ++ "/" ++ P).data = false)
    (hpct : occursB pctSep
      ((O ++ "/" ++ R ++ "/" ++ B ++ "/").data ++ P.data.take 2) = false) :
    repAll pctSep slash
        ((splitAll qMark (O ++ "/" ++ R ++ "/" ++ B ++ "/" ++ P).data).headD []) =
      (O ++ "/" ++ R ++ "/" ++ B ++ "/").data ++ repAll pctSep slash P.data := by
  rw [splitAll_nooc (by decide) (not_occursIn_of_occursB hq)]
  simp only [List.headD_cons]
  have hdec : (O ++ "/" ++ R ++ "/" ++ B ++ "/" ++ P).data =
      (O ++ "/" ++ R ++ "/" ++ B ++ "/").data ++ P.data := rfl
  have hlen : pctSep.length - 1 = 2 := by decide
  rw [hdec, repAll_skip slash (by decide) _ _
    (by rw [hlen]; exact not_occursIn_of_occursB hpct)]

/-- C3 counterexample: the rewrite does not preserve the file path
exactly — `str.replace` replaces every occurrence of the viewer segment,
so a path that itself contains `/blob/` is mangled
(`docs/blob/notes.txt` becomes `docs/notes.txt`). -/
theorem C3_path_not_preserved_counterexample :
    rewriteLocation "https://github.com/owner/repo/blob/main/docs/blob/notes.txt" =
      Except.ok "https://raw.githubusercontent.com/owner/repo/main/docs/notes.txt" ∧
    "https://raw.githubusercontent.com/owner/repo/main/docs/notes.txt" ≠
      "https://raw.githubusercontent.com/owner/repo/main/docs/blob/notes.txt" :=
  ⟨rfl, by decide⟩

/-- C3 (amended): a viewer-style URL
`https://github.com/OWNER/REPO/blob/BRANCH/PATH` (or `/raw/`) is
rewritten to the direct content endpoint
`https://raw.githubusercontent.com/OWNER/REPO/BRANCH/PATH` with every
`%2F` in the path decoded to `/` — provided the components are
unambiguous: no second `github.com/`, no further `/blob/` or `/raw/`
occurrence (in particular none inside the path), no `?`, and no `%2F`
straddling into the non-path components.  (Without those provisos the
components are not preserved, as the counterexample shows.) -/
theorem C3_viewer_url_rewritten (O R B P : String) :
    ((occursB ghSep (O ++ "/" ++ R ++ "/blob/" ++ B ++ "/" ++ P).data = false) →
     (occursB blobSeg ((O ++ "/" ++ R).data ++ "/blob".data) = false) →
     (occursB blobSeg (B ++ "/" ++ P).data = false) →
     (occursB rawSeg (O ++ "/" ++ R ++ "/" ++ B ++ "/" ++ P).data = false) →
     (occursB qMark (O ++ "/" ++ R ++ "/" ++ B ++ "/" ++ P).data = false) →
     (occursB pctSep ((O ++ "/" ++ R ++ "/" ++ B ++ "/").data ++ P.data.take 2) = false) →
     rewriteLocation ("https://github.com/" ++ (O ++ "/" ++ R ++ "/blob/" ++ B ++ "/" ++ P)) =
       Except.ok ("https://raw.githubusercontent.com/" ++
         String.mk ((O ++ "/" ++ R ++ "/" ++ B ++ "/").data ++
           repAll pctSep slash P.data))) ∧
    ((occursB ghSep (O ++ "/" ++ R ++ "/raw/" ++ B ++ "/" ++ P).data = false) →
     (occursB blobSeg (O ++ "/" ++ R ++ "/raw/" ++ B ++ "/" ++ P).data = false) →
     (occursB rawSeg ((O ++ "/" ++ R).data ++ "/raw".data) = false) →
     (occursB rawSeg (B ++ "/" ++ P).data = false) →
     (occursB qMark (O ++ "/" ++ R ++ "/" ++ B ++ "/" ++ P).data = false) →
     (occursB pctSep ((O ++ "/" ++ R ++ "/" ++ B ++ "/").data ++ P.data.take 2) = false) →
     rewriteLocation ("https://github.com/" ++ (O ++ "/" ++ R ++ "/raw/" ++ B ++ "/" ++ P)) =
       Except.ok ("https://raw.githubusercontent.com/" ++
         String.mk ((O ++ "/" ++ R ++ "/" ++ B ++ "/").data ++
           repAll pctSep slash P.data))) := by
  have hM : (O ++ "/" ++ R).data ++ slash ++ (B ++ "/" ++ P).data =
      (O ++ "/" ++ R ++ "/" ++ B ++ "/" ++ P).data := by
    simp [data_append, slash, List.append_assoc]
  constructor
  · intro hgh hbe hbc hrw hq hpct
    have hif := ghMark_in_url (O ++ "/" ++ R ++ "/blob/" ++ B ++ "/" ++ P)
    have htail : (O ++ "/" ++ R ++ "/blob/" ++ B ++ "/" ++ P).data =
        (O ++ "/" ++ R).data ++ blobSeg ++ (B ++ "/" ++ P).data := by
      simp [data_append, blobSeg, List.append_assoc]
    simp only [rewriteLocation, hif, if_true,
      split_url (O ++ "/" ++ R ++ "/blob/" ++ B ++ "/" ++ P) hgh]
    rw [htail, repAll_at slash (by decide) _ _
      (by rw [show blobSeg.take (blobSeg.length - 1) = "/blob".data from by decide]
          exact not_occursIn_of_occursB hbe),
      repAll_nooc slash (by decide) (not_occursIn_of_occursB hbc),
      hM, repAll_nooc slash (by decide) (not_occursIn_of_occursB hrw),
      rewrite_tail_common O R B P hq hpct]
  · intro hgh hball hre hrc hq hpct
    have hif := ghMark_in_url (O ++ "/" ++ R ++ "/raw/" ++ B ++ "/" ++ P)
    have htail : (O ++ "/" ++ R ++ "/raw/" ++ B ++ "/" ++ P).data =
        (O ++ "/" ++ R).data ++ rawSeg ++ (B ++ "/" ++ P).data := by
      simp [data_append, rawSeg, List.append_assoc]
    simp only [rewriteLocation, hif, if_true,
      split_url (O ++ "/" ++ R ++ "/raw/" ++ B ++ "/" ++ P) hgh]
    rw [repAll_nooc slash (by decide) (not_occursIn_of_occursB hball),
      htail, repAll_at slash (by decide) _ _
      (by rw [show rawSeg.take (rawSeg.length - 1) = "/raw".data from by decide]
          exact not_occursIn_of_occursB hre),
      repAll_nooc slash (by decide) (not_occursIn_of_occursB hrc),
      hM, rewrite_tail_common O R B P hq hpct]

/-- C3 witness: both viewer forms rewritten on concrete components, with
a `%2F` decoded inside the path. -/
theorem C3_viewer_url_rewritten_witness :
    rewriteLocation "https://github.com/octo/hub/blob/main/src/dir%2Fapp.py" =
      Except.ok ("https://raw.githubusercontent.com/" ++
        String.mk (("octo" ++ "/" ++ "hub" ++ "/" ++ "main" ++ "/").data ++
          repAll pctSep slash "src/dir%2Fapp.py".data)) ∧
    rewriteLocation "https://github.com/octo/hub/raw/main/src/dir%2Fapp.py" =
      Except.ok ("https://raw.githubusercontent.com/" ++
        String.mk (("octo" ++ "/" ++ "hub" ++ "/" ++ "main" ++ "/").data ++
          repAll pctSep slash "src/dir%2Fapp.py".data)) := by
  constructor
  · have h := (C3_viewer_url_rewritten "octo" "hub" "main" "src/dir%2Fapp.py").1
      (by decide) (by decide) (by decide) (by decide) (by decide) (by decide)
    exact h
  · have h := (C3_viewer_url_rewritten "octo" "hub" "main" "src/dir%2Fapp.py").2
      (by decide) (by decide) (by decide) (by decide) (by decide) (by decide)
    exact h

end AutoSync
